import Mathlib

/-!
Verification of the element-data aggregation and periodic-table heatmap logic
of the ml-matrics library (src/ml_matrics/elements.py and utils.py).

Numeric heatmap values are modelled as extended rationals (`EVal`): IEEE-754
floats restricted to the exact arithmetic the code performs (elementwise
division producing infinities and NaN, NaN-skipping sums).  Pandas Series
indexed by the periodic table are modelled as association lists over the fixed
list of element symbols.
-/

/-- Extended numeric value: a finite rational, positive or negative infinity,
or NaN.  Models the float values flowing through the element pipelines. -/
inductive EVal where
  | fin (q : ℚ)
  | inf
  | ninf
  | nan
deriving DecidableEq, Repr

namespace EVal

/-- True for finite values (neither infinite nor NaN). -/
def isFinite : EVal → Bool
  | fin _ => true
  | _ => false

/-- The finite rational carried by a value, if any. -/
def fin? : EVal → Option ℚ
  | fin q => some q
  | _ => none

/-- True for values that are finite or NaN (no infinities). -/
def finOrNan : EVal → Bool
  | fin _ => true
  | nan => true
  | _ => false

/-- True for every value except NaN. -/
def notNan : EVal → Bool
  | nan => false
  | _ => true

/-- IEEE-754 addition on extended values (used by pandas sums). -/
def add : EVal → EVal → EVal
  | nan, _ => nan
  | _, nan => nan
  | fin a, fin b => fin (a + b)
  | inf, ninf => nan
  | ninf, inf => nan
  | inf, _ => inf
  | _, inf => inf
  | ninf, _ => ninf
  | _, ninf => ninf

/-- IEEE-754 division on extended values: x/0 is a signed infinity for
nonzero x, 0/0 is NaN, inf/inf is NaN; this is what numpy and pandas
elementwise division of Series produces. -/
def div : EVal → EVal → EVal
  | nan, _ => nan
  | _, nan => nan
  | fin a, fin b =>
      if b = 0 then (if 0 < a then inf else if a < 0 then ninf else nan)
      else fin (a / b)
  | fin _, inf => fin 0
  | fin _, ninf => fin 0
  | inf, fin b => if b < 0 then ninf else inf
  | ninf, fin b => if b < 0 then inf else ninf
  | inf, inf => nan
  | inf, ninf => nan
  | ninf, inf => nan
  | ninf, ninf => nan

/-- Comparison with zero: `v > 0` in float semantics (false for NaN). -/
def gtZero : EVal → Bool
  | fin q => decide (0 < q)
  | inf => true
  | ninf => false
  | nan => false

/-- Weak order used by `sort_values(ascending=False)`; NaN sorts last in
descending order (it never occurs after the positive filter in the code). -/
def geb : EVal → EVal → Bool
  | _, nan => true
  | nan, _ => false
  | inf, _ => true
  | _, inf => false
  | _, ninf => true
  | ninf, _ => false
  | fin a, fin b => decide (b ≤ a)

end EVal

/-- Sum of a list of float values as pandas `Series.sum()` computes it with
the default skipna=True: NaN entries are skipped, infinities propagate. -/
def pandasSum (l : List EVal) : EVal :=
  (l.filter EVal.notNan).foldl EVal.add (EVal.fin 0)

/-- Sum of the finite entries of a list of extended values. -/
def sumFins (l : List EVal) : ℚ :=
  (l.filterMap EVal.fin?).sum

/-- Keys of the intermediate pandas Series in `count_elements`: either element
symbols / composition strings (a str index) or atomic numbers (an int index). -/
inductive PyKey where
  | str (s : String)
  | int (n : Int)
deriving DecidableEq, Repr

/-- Values supplied to `count_elements`: numbers (heat values), strings
(composition expressions; pymatgen Composition objects are modelled by their
formula string), or any other Python object (invalid). -/
inductive PyVal where
  | num (v : EVal)
  | str (s : String)
  | other (tag : String)
deriving DecidableEq, Repr

namespace PyVal

/-- True when the Series of these values has a numeric dtype
(`pandas.api.types.is_numeric_dtype`), i.e. all values are numbers. -/
def isNum : PyVal → Bool
  | num _ => true
  | _ => false

/-- True when the Series of these values is string-like
(`pandas.api.types.is_string_dtype`), i.e. all values are composition
expressions. -/
def isStr : PyVal → Bool
  | str _ => true
  | _ => false

end PyVal

/-- Modelled from the spec: one row of the Element Metadata Table
(elements.csv, loaded into the module-level `df_ptable`; the csv itself is
external data not present under src/).  Only the columns the verified claims
touch are kept: the unique symbol, the atomic number and the display name. -/
structure ElemRecord where
  symbol : String
  atomic_number : Nat
  name : String
deriving DecidableEq, Repr

/-- Modelled from the spec: symbol and name of each of the 118 known chemical
elements, listed in order of atomic number (H is 1, He is 2, ...). -/
def elementData : List (String × String) :=
  [("H", "Hydrogen"), ("He", "Helium"), ("Li", "Lithium"), ("Be", "Beryllium"),
   ("B", "Boron"), ("C", "Carbon"), ("N", "Nitrogen"), ("O", "Oxygen"),
   ("F", "Fluorine"), ("Ne", "Neon"), ("Na", "Sodium"), ("Mg", "Magnesium"),
   ("Al", "Aluminum"), ("Si", "Silicon"), ("P", "Phosphorus"), ("S", "Sulfur"),
   ("Cl", "Chlorine"), ("Ar", "Argon"), ("K", "Potassium"), ("Ca", "Calcium"),
   ("Sc", "Scandium"), ("Ti", "Titanium"), ("V", "Vanadium"), ("Cr", "Chromium"),
   ("Mn", "Manganese"), ("Fe", "Iron"), ("Co", "Cobalt"), ("Ni", "Nickel"),
   ("Cu", "Copper"), ("Zn", "Zinc"), ("Ga", "Gallium"), ("Ge", "Germanium"),
   ("As", "Arsenic"), ("Se", "Selenium"), ("Br", "Bromine"), ("Kr", "Krypton"),
   ("Rb", "Rubidium"), ("Sr", "Strontium"), ("Y", "Yttrium"), ("Zr", "Zirconium"),
   ("Nb", "Niobium"), ("Mo", "Molybdenum"), ("Tc", "Technetium"),
   ("Ru", "Ruthenium"), ("Rh", "Rhodium"), ("Pd", "Palladium"), ("Ag", "Silver"),
   ("Cd", "Cadmium"), ("In", "Indium"), ("Sn", "Tin"), ("Sb", "Antimony"),
   ("Te", "Tellurium"), ("I", "Iodine"), ("Xe", "Xenon"), ("Cs", "Cesium"),
   ("Ba", "Barium"), ("La", "Lanthanum"), ("Ce", "Cerium"),
   ("Pr", "Praseodymium"), ("Nd", "Neodymium"), ("Pm", "Promethium"),
   ("Sm", "Samarium"), ("Eu", "Europium"), ("Gd", "Gadolinium"),
   ("Tb", "Terbium"), ("Dy", "Dysprosium"), ("Ho", "Holmium"), ("Er", "Erbium"),
   ("Tm", "Thulium"), ("Yb", "Ytterbium"), ("Lu", "Lutetium"), ("Hf", "Hafnium"),
   ("Ta", "Tantalum"), ("W", "Tungsten"), ("Re", "Rhenium"), ("Os", "Osmium"),
   ("Ir", "Iridium"), ("Pt", "Platinum"), ("Au", "Gold"), ("Hg", "Mercury"),
   ("Tl", "Thallium"), ("Pb", "Lead"), ("Bi", "Bismuth"), ("Po", "Polonium"),
   ("At", "Astatine"), ("Rn", "Radon"), ("Fr", "Francium"), ("Ra", "Radium"),
   ("Ac", "Actinium"), ("Th", "Thorium"), ("Pa", "Protactinium"),
   ("U", "Uranium"), ("Np", "Neptunium"), ("Pu", "Plutonium"),
   ("Am", "Americium"), ("Cm", "Curium"), ("Bk", "Berkelium"),
   ("Cf", "Californium"), ("Es", "Einsteinium"), ("Fm", "Fermium"),
   ("Md", "Mendelevium"), ("No", "Nobelium"), ("Lr", "Lawrencium"),
   ("Rf", "Rutherfordium"), ("Db", "Dubnium"), ("Sg", "Seaborgium"),
   ("Bh", "Bohrium"), ("Hs", "Hassium"), ("Mt", "Meitnerium"),
   ("Ds", "Darmstadtium"), ("Rg", "Roentgenium"), ("Cn", "Copernicium"),
   ("Nh", "Nihonium"), ("Fl", "Flerovium"), ("Mc", "Moscovium"),
   ("Lv", "Livermorium"), ("Ts", "Tennessine"), ("Og", "Oganesson")]

/-- Numbering of the table rows in listing order, starting from a given
atomic number. -/
def buildTable : Nat → List (String × String) → List ElemRecord
  | _, [] => []
  | n, (s, nm) :: rest => ⟨s, n, nm⟩ :: buildTable (n + 1) rest

/-- Modelled from the spec: the Element Metadata Table `df_ptable`,
symbol-indexed, with atomic numbers assigned in listing order. -/
def df_ptable : List ElemRecord :=
  buildTable 1 elementData

/-- The fixed index of the table: the 118 known element symbols
(`df_ptable.index`). -/
def ptableSymbols : List String :=
  df_ptable.map ElemRecord.symbol

/-- Translation of an atomic number to its element symbol, as performed by
`df_ptable.reset_index().set_index("atomic_number").symbol`; numbers with no
matching row map to nothing (a NaN label that `reindex` later drops). -/
def atomicNumberToSymbol (n : Int) : Option String :=
  (df_ptable.find? fun r => decide ((r.atomic_number : Int) = n)).map ElemRecord.symbol

/-- Python `str.isdigit`: true iff the string is nonempty and all digits. -/
def isDigitStr (s : String) : Bool :=
  decide (s.length ≠ 0) && s.toList.all Char.isDigit

/-- The integer denoted by a key, for the atomic-number reinterpretation
(`srs.index.astype(int)`); only applied under the all-int / all-digit guard,
so the fallback 0 for non-digit strings is never reached there. -/
def pyKeyInt : PyKey → Int
  | .int n => n
  | .str s => (s.toNat?.getD 0 : Nat)

/-- Representation of the raw input used in the `count_elements` error
message (the `{elem_values}` interpolation). -/
def pyKeyRepr : PyKey → String
  | .str s => s
  | .int n => toString n

/-- Representation of one input value for the error message. -/
def pyValRepr : PyVal → String
  | .num (.fin q) => toString q
  | .num .inf => "inf"
  | .num .ninf => "-inf"
  | .num .nan => "nan"
  | .str s => s
  | .other tag => tag

/-- Representation of the whole `elem_values` input, interpolated into the
aggregator error message so that the message names the offending input. -/
def elemValuesRepr (ev : List (PyKey × PyVal)) : String :=
  "[" ++ String.intercalate ", "
    (ev.map fun kv => "(" ++ pyKeyRepr kv.1 ++ ", " ++ pyValRepr kv.2 ++ ")") ++ "]"

/-- The fixed text of the aggregator error message before the input repr. -/
def invalidElemValuesMsgHead : String :=
  "Expected elem_values to be map from element symbols to heatmap values or " ++
  "list of compositions (strings or Pymatgen objects), got "

/-- The full `ValueError` message raised by `count_elements`. -/
def invalidElemValuesMsg (ev : List (PyKey × PyVal)) : String :=
  invalidElemValuesMsgHead ++ elemValuesRepr ev

/-- Entries of the Series when its dtype is numeric: the values are kept
as-is under their original keys. -/
def numEntries (ev : List (PyKey × PyVal)) : List (PyKey × EVal) :=
  ev.filterMap fun kv =>
    match kv.2 with
    | .num v => some (kv.1, v)
    | _ => none

/-- The composition strings of the input, in order (the Series values when
its dtype is string-like). -/
def strValues (ev : List (PyKey × PyVal)) : List String :=
  ev.filterMap fun kv =>
    match kv.2 with
    | .str s => some s
    | _ => none

/-- Accumulate one fractional element weight into a keyed running sum. -/
def addWeight (acc : List (String × ℚ)) (kv : String × ℚ) : List (String × ℚ) :=
  if acc.any fun e => decide (e.1 = kv.1) then
    acc.map fun e => if e.1 = kv.1 then (e.1, e.2 + kv.2) else e
  else
    acc ++ [kv]

/-- Sum of the per-composition fractional weights across all compositions:
the model of `srs.apply(formula2dict).sum()`, which sums each element column
of the resulting frame while skipping the NaNs of compositions that lack the
element. -/
def sumComps (comps : List (List (String × ℚ))) : List (String × ℚ) :=
  comps.foldl (fun acc c => c.foldl addWeight acc) []

/-- Dispatch of `count_elements` on the Series dtype: numeric values are kept,
string values are parsed as compositions (via the external pymatgen parser
`parse`, mapping a formula to its fractional composition) and summed, and any
other mix of value types raises the ValueError naming the input. -/
def branchEntries (parse : String → List (String × ℚ))
    (ev : List (PyKey × PyVal)) : Except String (List (PyKey × EVal)) :=
  if (ev.map Prod.snd).all PyVal.isNum then
    .ok (numEntries ev)
  else if (ev.map Prod.snd).all PyVal.isStr then
    .ok ((sumComps ((strValues ev).map parse)).map fun kv =>
      (PyKey.str kv.1, EVal.fin kv.2))
  else
    .error (invalidElemValuesMsg ev)

/-- True when the Series index has int dtype (`srs.index.dtype == int`); the
empty index is a RangeIndex and counts as int, matching pandas. -/
def indexAllInt (keys : List PyKey) : Bool :=
  keys.all fun k =>
    match k with
    | .int _ => true
    | .str _ => false

/-- True when every index label is an all-digit string
(`srs.index.str.isdigit().all()`); non-string labels yield NaN from the
`.str` accessor, which the truthy `.all()` skips, hence `true` for ints. -/
def indexAllDigit (keys : List PyKey) : Bool :=
  keys.all fun k =>
    match k with
    | .int _ => true
    | .str s => isDigitStr s

/-- Reinterpretation of an integer index as atomic numbers: every key is
translated to its element symbol; keys with no matching element get a NaN
label, which the final `reindex` drops, so they are removed here. -/
def remapAtomic (entries : List (PyKey × EVal)) : List (PyKey × EVal) :=
  entries.filterMap fun kv =>
    (atomicNumberToSymbol (pyKeyInt kv.1)).map fun s => (PyKey.str s, kv.2)

/-- Atomic-number reinterpretation step of `count_elements`: applied when the
index is an int index or all labels are digit strings. -/
def applyRemap (entries : List (PyKey × EVal)) : List (PyKey × EVal) :=
  if indexAllInt (entries.map Prod.fst) || indexAllDigit (entries.map Prod.fst) then
    remapAtomic entries
  else
    entries

/-- First value stored under the string key `sym`, if any (the Series lookup
performed by `reindex` for each symbol of the table index). -/
def findVal : List (PyKey × EVal) → String → Option EVal
  | [], _ => none
  | kv :: rest, sym =>
      if kv.1 = PyKey.str sym then some kv.2 else findVal rest sym

/-- Reindexing onto the full fixed element index with fill_value=0
(`srs.reindex(df_ptable.index, fill_value=0)`). -/
def reindex (entries : List (PyKey × EVal)) : List (String × EVal) :=
  ptableSymbols.map fun s => (s, (findVal entries s).getD (EVal.fin 0))

/-- Model of `count_elements`: dtype dispatch, atomic-number
reinterpretation, then reindexing onto the 118 known element symbols. -/
def count_elements (parse : String → List (String × ℚ))
    (ev : List (PyKey × PyVal)) : Except String (List (String × EVal)) :=
  (branchEntries parse ev).map fun entries => reindex (applyRemap entries)

/-- The `heat_labels` configuration values other than None. -/
inductive HeatLabels where
  | value
  | fraction
  | percent
deriving DecidableEq, Repr

/-- Errors of the static-raster heatmap renderer: the config conflict raised
for log together with fraction/percent labels (`ConfigConflictError` in the
spec; a ValueError in the code), or the aggregator error propagating out of
`count_elements` (`InvalidInputError`). -/
inductive HeatmapError where
  | configConflict
  | invalidInput (msg : String)
deriving DecidableEq, Repr

/-- The claim-relevant state `ptable_heatmap` computes before drawing: the
element value Series it renders tiles from, and the color normalization
bounds vmin/vmax (None when autoscaling over no finite values). -/
structure HeatmapRender where
  elemValues : List (String × EVal)
  vmin : Option ℚ
  vmax : Option ℚ
deriving DecidableEq, Repr

/-- Finite values of the Series, in order: models
`elem_values.replace([np.inf, -np.inf], np.nan).dropna()`. -/
def cleanVals (ev : List (String × EVal)) : List ℚ :=
  ev.filterMap fun kv => kv.2.fin?

/-- Overriding the autoscaled maximum with `cbar_max`: the code assigns
`norm.vmax = cbar_max` whenever `cbar_max is not None`, without comparing it
to the autoscaled maximum. -/
def overrideVmax (auto : Option ℚ) (cbar_max : Option ℚ) : Option ℚ :=
  match cbar_max with
  | some c => some c
  | none => auto

/-- Normalization and color-scale bounds of `ptable_heatmap` after
aggregation: divide by the finite total when heat_labels is
fraction/percent, autoscale the norm over the finite values, then apply the
`cbar_max` override.  (The float corner case of a zero finite total under
fraction/percent, where the clean values would divide to infinities, is
modelled with rational division and is not relied on by any theorem.) -/
def mkRender (ev : List (String × EVal)) (cbar_max : Option ℚ)
    (heat_labels : Option HeatLabels) : HeatmapRender :=
  let clean := cleanVals ev
  let normalizeLabels :=
    heat_labels = some HeatLabels.fraction ∨ heat_labels = some HeatLabels.percent
  let total := clean.sum
  let ev' :=
    if normalizeLabels then ev.map fun kv => (kv.1, kv.2.div (EVal.fin total))
    else ev
  let clean' := if normalizeLabels then clean.map (· / total) else clean
  ⟨ev', clean'.min?, overrideVmax clean'.max? cbar_max⟩

/-- Model of `ptable_heatmap` up to the state the tiles and colorbar are
drawn from: the log/labels conflict check comes first (before any
aggregation), then aggregation, then normalization bounds. -/
def ptable_heatmap (parse : String → List (String × ℚ))
    (ev : List (PyKey × PyVal)) (log : Bool) (cbar_max : Option ℚ)
    (heat_labels : Option HeatLabels) : Except HeatmapError HeatmapRender :=
  if log ∧ (heat_labels = some HeatLabels.fraction ∨
      heat_labels = some HeatLabels.percent) then
    .error .configConflict
  else
    match count_elements parse ev with
    | .error msg => .error (.invalidInput msg)
    | .ok vals => .ok (mkRender vals cbar_max heat_labels)

/-- The ratio vector computed by `ptable_heatmap_ratio` and handed to
`ptable_heatmap`: aggregate numerator and denominator independently, divide
elementwise, and divide the whole vector by its own pandas sum when
normalize is set. -/
def ratioVector (parse : String → List (String × ℚ))
    (ev_num ev_denom : List (PyKey × PyVal)) (normalize : Bool) :
    Except String (List (String × EVal)) :=
  match count_elements parse ev_num with
  | .error e => .error e
  | .ok num =>
    match count_elements parse ev_denom with
    | .error e => .error e
    | .ok denom =>
      let ev := List.zipWith (fun a b => (a.1, EVal.div a.2 b.2)) num denom
      if normalize then
        .ok (ev.map fun kv => (kv.1, kv.2.div (pandasSum (ev.map Prod.snd))))
      else
        .ok ev

/-- The nonzero element counts sorted descending by count
(`elem_counts[elem_counts > 0].sort_values(ascending=False)`); the stable
insertion sort refines the unspecified pandas tie order. -/
def nonZeroSorted (counts : List (String × EVal)) : List (String × EVal) :=
  (counts.filter fun kv => kv.2.gtZero).insertionSort
    fun a b => EVal.geb a.2 b.2 = true

/-- The bars `hist_elemental_prevalence` displays: nonzero counts sorted
descending, truncated to the top n when keep_top is given. -/
def displayedBars (counts : List (String × EVal)) (keep_top : Option Nat) :
    List (String × EVal) :=
  match keep_top with
  | some n => (nonZeroSorted counts).take n
  | none => nonZeroSorted counts

/-- The percent labels of `hist_elemental_prevalence` with
bar_values="percent", as the numeric fractions the code formats with ".1%":
each displayed count divided by `sum_elements`, the sum taken over the
already-truncated `non_zero` Series. -/
def histPercentLabels (parse : String → List (String × ℚ))
    (formulas : List (PyKey × PyVal)) (keep_top : Option Nat) :
    Except String (List EVal) :=
  match count_elements parse formulas with
  | .error e => .error e
  | .ok counts =>
    let nonZero := displayedBars counts keep_top
    .ok (nonZero.map fun kv => kv.2.div (pandasSum (nonZero.map Prod.snd)))

/-- Model of `get_crystal_sys` (utils.py): floats equal to their integer
truncation are integral, so the validity guard is `spg` integral and in the
open interval (0, 231); then the crystal system is read off the chain of
upper bounds. -/
def get_crystal_sys (spg : ℚ) : Except String String :=
  if spg.den = 1 ∧ 0 < spg ∧ spg < 231 then
    if 0 < spg ∧ spg < 3 then .ok "triclinic"
    else if spg < 16 then .ok "monoclinic"
    else if spg < 75 then .ok "orthorhombic"
    else if spg < 143 then .ok "tetragonal"
    else if spg < 168 then .ok "trigonal"
    else if spg < 195 then .ok "hexagonal"
    else .ok "cubic"
  else
    .error ("Received invalid space group " ++ toString spg)

/-- First value stored under a symbol in an element-indexed Series (used to
state what the dense aggregated output maps each symbol to). -/
def seriesVal (out : List (String × EVal)) (sym : String) : Option EVal :=
  (out.find? fun kv => decide (kv.1 = sym)).map Prod.snd

/-- One row of `df_ptable` as `ptable_heatmap_plotly` iterates it: the
element symbol, its display name, and the metadata columns reachable through
`df_ptable.loc[symbol]`, as column-name/rendered-value pairs. -/
structure PlotlyRow where
  symbol : String
  name : String
  props : List (String × String)
deriving DecidableEq, Repr

/-- The two documented shapes of the `hover_cols` argument: a dict mapping
column names to display labels, or a list of column names. -/
inductive HoverCols where
  | dict (entries : List (String × String))
  | list (cols : List String)
deriving DecidableEq, Repr

/-- Runtime errors of the hover-text construction: reading a never-assigned
local variable (Python NameError) or a missing column/key lookup (KeyError). -/
inductive PlotlyError where
  | nameErr (var : String)
  | keyErr (key : String)
deriving DecidableEq, Repr

/-- Keyed lookup that raises KeyError when the key is absent, as Python
`df_row[col_name]` / `hover_data[symbol]` indexing does. -/
def getItem (kvs : List (String × String)) (key : String) :
    Except PlotlyError String :=
  match kvs.find? fun kv => decide (kv.1 = key) with
  | some kv => .ok kv.2
  | none => .error (.keyErr key)

/-- The dict branch of the hover_cols block: appends one
"label = value" line per dict entry, raising KeyError on a missing column;
`col_data_str` is never assigned here. -/
def dictHoverFold (props : List (String × String)) :
    List (String × String) → String → Except PlotlyError String
  | [], ht => .ok ht
  | kv :: rest, ht =>
    match getItem props kv.1 with
    | .error e => .error e
    | .ok v => dictHoverFold props rest (ht ++ "<br>" ++ kv.2 ++ " = " ++ v)

/-- The list branch of the hover_cols block: the "name = value" parts that
are joined into `col_data_str`. -/
def listHoverParts (props : List (String × String)) :
    List String → Except PlotlyError (List String)
  | [] => .ok []
  | c :: rest =>
    match getItem props c with
    | .error e => .error e
    | .ok v =>
      match listHoverParts props rest with
      | .error e => .error e
      | .ok parts => .ok ((c ++ " = " ++ v) :: parts)

/-- The `if hover_cols is not None` block for one tile, given the value of
the local `col_data_str` from earlier loop iterations (none when it was
never assigned).  Mirrors the code: the dict branch appends its lines but
never assigns `col_data_str`, the list branch assigns it, and then the
unconditional append of col_data_str to hover_text reads it — reading it
while unassigned is Python's NameError.  Returns the tile text and the updated
variable state. -/
def rowHoverTextCols (hover_cols : Option HoverCols) (r : PlotlyRow)
    (colDataStr : Option String) (ht : String) :
    Except PlotlyError (String × Option String) :=
  match hover_cols with
  | none => .ok (ht, colDataStr)
  | some (.dict d) =>
    match dictHoverFold r.props d ht with
    | .error e => .error e
    | .ok ht' =>
      match colDataStr with
      | none => .error (.nameErr "col_data_str")
      | some s => .ok (ht' ++ "<br>" ++ s, colDataStr)
  | some (.list cols) =>
    match listHoverParts r.props cols with
    | .error e => .error e
    | .ok parts =>
      let s := String.intercalate "<br>" parts
      .ok (ht ++ "<br>" ++ s, some s)

/-- Hover text of one tile: element name, optional hover_data line, then the
hover_cols block. -/
def rowHoverText (hover_data : Option (List (String × String)))
    (hover_cols : Option HoverCols) (r : PlotlyRow)
    (colDataStr : Option String) : Except PlotlyError (String × Option String) :=
  match hover_data with
  | some hd =>
    match getItem hd r.symbol with
    | .error e => .error e
    | .ok v => rowHoverTextCols hover_cols r colDataStr (r.name ++ "<br>" ++ v)
  | none => rowHoverTextCols hover_cols r colDataStr r.name

/-- The hover texts of all tiles, threading the `col_data_str` local through
the loop over `df_ptable.itertuples()`. -/
def hoverTexts (hover_data : Option (List (String × String)))
    (hover_cols : Option HoverCols) :
    List PlotlyRow → Option String → Except PlotlyError (List String)
  | [], _ => .ok []
  | r :: rs, cds =>
    match rowHoverText hover_data hover_cols r cds with
    | .error e => .error e
    | .ok (ht, cds') =>
      match hoverTexts hover_data hover_cols rs cds' with
      | .error e => .error e
      | .ok rest => .ok (ht :: rest)

/-- The hover-text construction of `ptable_heatmap_plotly` over the rows of
the metadata table (an external static resource, hence a parameter):
`col_data_str` starts unassigned. -/
def plotlyHoverTexts (rows : List PlotlyRow)
    (hover_data : Option (List (String × String)))
    (hover_cols : Option HoverCols) : Except PlotlyError (List String) :=
  hoverTexts hover_data hover_cols rows none

/-! Shared facts about the element table and the Series operations. -/

/-- An already-dense, fully-populated numeric Element Value Vector as an
input to `count_elements`: one numeric value per known element symbol. -/
def denseInput (w : String → EVal) : List (PyKey × PyVal) :=
  ptableSymbols.map fun s => (PyKey.str s, PyVal.num (w s))

/-- A symbol-keyed input whose largest value is 10. -/
def feTenInput : List (PyKey × PyVal) :=
  [(PyKey.str "Fe", PyVal.num (EVal.fin 10))]

deriving instance DecidableEq for Except

/-- A mixed-type input: a numeric value alongside a composition string. -/
def mixedInput : List (PyKey × PyVal) :=
  [(PyKey.str "Fe", PyVal.num (EVal.fin 1)), (PyKey.int 0, PyVal.str "Fe2O3")]

/-- A symbol-keyed input mapping Fe to 2. -/
def feTwoInput : List (PyKey × PyVal) :=
  [(PyKey.str "Fe", PyVal.num (EVal.fin 2))]

/-- The dense aggregate of `feTwoInput`. -/
def denseFeOut : List (String × EVal) :=
  ptableSymbols.map fun s => (s, if s = "Fe" then EVal.fin 2 else EVal.fin 0)

/-- Numerator input for the C6 counterexample: Fe and O present. -/
def ratioNumIn : List (PyKey × PyVal) :=
  [(PyKey.str "Fe", PyVal.num (EVal.fin 1)), (PyKey.str "O", PyVal.num (EVal.fin 1))]

/-- Denominator input for the C6 counterexample: only Fe present. -/
def ratioDenomIn : List (PyKey × PyVal) :=
  [(PyKey.str "Fe", PyVal.num (EVal.fin 1))]

/-- The ratio vector of `feTwoInput` with itself: 1.0 at Fe, NaN elsewhere. -/
def c6SelfVec : List (String × EVal) :=
  ptableSymbols.map fun s => (s, if s = "Fe" then EVal.fin 1 else EVal.nan)

/-- Input for C9: Fe counted 3 times, O once. -/
def histIn : List (PyKey × PyVal) :=
  [(PyKey.str "Fe", PyVal.num (EVal.fin 3)), (PyKey.str "O", PyVal.num (EVal.fin 1))]

/-- The dense aggregate of `histIn`. -/
def histCounts : List (String × EVal) :=
  ptableSymbols.map fun s =>
    (s, if s = "Fe" then EVal.fin 3 else if s = "O" then EVal.fin 1 else EVal.fin 0)

/-- Whether the hover_data lookup for a row succeeds (vacuously true when no
hover_data was passed). -/
def hoverDataOk : Option (List (String × String)) → PlotlyRow → Bool
  | none, _ => true
  | some hd, row => (getItem hd row.symbol).isOk

/-- A one-row metadata table for the C10 witness. -/
def h2Row : PlotlyRow :=
  ⟨"H", "Hydrogen", [("n_valence", "1")]⟩

theorem ptableSymbols_nodup : ptableSymbols.Nodup := by decide

theorem ptableSymbols_no_digit : ∀ s ∈ ptableSymbols, isDigitStr s = false := by
  decide

theorem findVal_not_mem (entries : List (PyKey × EVal)) (sym : String)
    (h : PyKey.str sym ∉ entries.map Prod.fst) : findVal entries sym = none := by
  induction entries with
  | nil => rfl
  | cons kv rest ih =>
    simp only [List.map_cons, List.mem_cons, not_or] at h
    simp only [findVal]
    rw [if_neg (fun he => h.1 he.symm), ih h.2]

theorem findVal_map_str (w : String → EVal) (l : List String) (hnd : l.Nodup)
    (s : String) (hs : s ∈ l) :
    findVal (l.map fun t => (PyKey.str t, w t)) s = some (w s) := by
  induction l with
  | nil => cases hs
  | cons t ts ih =>
    rcases List.mem_cons.mp hs with h | h
    · subst h
      simp [findVal]
    · have hne : ¬ t = s := fun he => (List.nodup_cons.mp hnd).1 (he ▸ h)
      simp only [List.map_cons, findVal, PyKey.str.injEq]
      rw [if_neg hne]
      exact ih (List.nodup_cons.mp hnd).2 h

theorem find?_pair_map {β : Type} (g : String → β) (l : List String)
    (hnd : l.Nodup) (s : String) (hs : s ∈ l) :
    (l.map fun t => (t, g t)).find? (fun kv => decide (kv.1 = s)) =
      some (s, g s) := by
  induction l with
  | nil => cases hs
  | cons t ts ih =>
    rcases List.mem_cons.mp hs with h | h
    · subst h
      simp [List.find?_cons]
    · have hne : ¬ t = s := fun he => (List.nodup_cons.mp hnd).1 (he ▸ h)
      have hd : decide (t = s) = false := decide_eq_false hne
      simp [List.find?_cons, hd, ih (List.nodup_cons.mp hnd).2 h]

theorem seriesVal_reindex (entries : List (PyKey × EVal)) (s : String)
    (hs : s ∈ ptableSymbols) :
    seriesVal (reindex entries) s =
      some ((findVal entries s).getD (EVal.fin 0)) := by
  unfold seriesVal reindex
  rw [find?_pair_map _ ptableSymbols ptableSymbols_nodup s hs]
  rfl

theorem reindex_map_fst (entries : List (PyKey × EVal)) :
    (reindex entries).map Prod.fst = ptableSymbols := by
  rw [reindex, List.map_map]
  exact List.map_id ptableSymbols

theorem reindex_length (entries : List (PyKey × EVal)) :
    (reindex entries).length = 118 := by
  rw [reindex, List.length_map]
  decide

theorem foldl_add_fin (l : List ℚ) (c : ℚ) :
    (l.map EVal.fin).foldl EVal.add (EVal.fin c) = EVal.fin (c + l.sum) := by
  induction l generalizing c with
  | nil => simp
  | cons q qs ih =>
    simp only [List.map_cons, List.foldl_cons, EVal.add, List.sum_cons]
    rw [ih (c + q), add_assoc]

theorem filter_notNan_eq (l : List EVal) (h : ∀ v ∈ l, v.finOrNan = true) :
    l.filter EVal.notNan = (l.filterMap EVal.fin?).map EVal.fin := by
  induction l with
  | nil => rfl
  | cons v vs ih =>
    have hv := h v (List.mem_cons_self v vs)
    have htail := fun x hx => h x (List.mem_cons_of_mem v hx)
    cases v with
    | fin q =>
      simp [List.filter_cons, List.filterMap_cons, EVal.notNan, EVal.fin?, ih htail]
    | nan =>
      simp [List.filter_cons, List.filterMap_cons, EVal.notNan, EVal.fin?, ih htail]
    | inf => simp [EVal.finOrNan] at hv
    | ninf => simp [EVal.finOrNan] at hv

theorem pandasSum_finOrNan (l : List EVal) (h : ∀ v ∈ l, v.finOrNan = true) :
    pandasSum l = EVal.fin (sumFins l) := by
  rw [pandasSum, filter_notNan_eq l h, foldl_add_fin, zero_add]
  rfl

theorem div_fin_fin (q t : ℚ) (ht : t ≠ 0) :
    EVal.div (EVal.fin q) (EVal.fin t) = EVal.fin (q / t) := by
  simp [EVal.div, ht]

theorem sumFins_map_div (l : List EVal) (t : ℚ)
    (h : ∀ v ∈ l, v.finOrNan = true) (ht : t ≠ 0) :
    sumFins (l.map fun v => v.div (EVal.fin t)) = sumFins l / t := by
  induction l with
  | nil => simp [sumFins]
  | cons v vs ih =>
    have hv := h v (List.mem_cons_self v vs)
    have htail := fun x hx => h x (List.mem_cons_of_mem v hx)
    cases v with
    | fin q =>
      simp only [List.map_cons, sumFins, List.filterMap_cons, div_fin_fin q t ht,
        EVal.fin?, List.sum_cons]
      have ihq := ih htail
      simp only [sumFins] at ihq
      rw [ihq, add_div]
    | nan =>
      simp only [List.map_cons, sumFins, List.filterMap_cons, EVal.div, EVal.fin?]
      exact ih htail
    | inf => simp [EVal.finOrNan] at hv
    | ninf => simp [EVal.finOrNan] at hv

theorem finOrNan_map_div (l : List EVal) (t : ℚ)
    (h : ∀ v ∈ l, v.finOrNan = true) (ht : t ≠ 0) :
    ∀ v ∈ l.map (fun v => v.div (EVal.fin t)), v.finOrNan = true := by
  intro v hv
  rcases List.mem_map.mp hv with ⟨x, hx, rfl⟩
  have hfn := h x hx
  cases x with
  | fin q => rw [div_fin_fin q t ht]; rfl
  | nan => rfl
  | inf => simp [EVal.finOrNan] at hfn
  | ninf => simp [EVal.finOrNan] at hfn

theorem pandasSum_map_div_self (l : List EVal) (t : ℚ)
    (h : ∀ v ∈ l, v.finOrNan = true) (hsum : pandasSum l = EVal.fin t)
    (ht : t ≠ 0) :
    pandasSum (l.map fun v => v.div (EVal.fin t)) = EVal.fin 1 := by
  have hs : sumFins l = t := by
    have h2 := pandasSum_finOrNan l h
    rw [hsum] at h2
    exact (EVal.fin.injEq _ _).mp h2.symm
  rw [pandasSum_finOrNan _ (finOrNan_map_div l t h ht),
    sumFins_map_div l t h ht, hs, div_self ht]

theorem numEntries_map_num (w : String → EVal) (l : List String) :
    numEntries (l.map fun s => (PyKey.str s, PyVal.num (w s))) =
      l.map fun s => (PyKey.str s, w s) := by
  induction l with
  | nil => rfl
  | cons t ts ih =>
    simp only [List.map_cons, numEntries, List.filterMap_cons] at ih ⊢
    rw [ih]

theorem denseInput_all_isNum (w : String → EVal) :
    ((denseInput w).map Prod.snd).all PyVal.isNum = true := by
  apply List.all_eq_true.mpr
  intro x hx
  rw [denseInput, List.map_map] at hx
  rcases List.mem_map.mp hx with ⟨s, _, rfl⟩
  rfl

/-- C5: count_elements is idempotent on dense input: aggregating an
already-dense, fully-populated numeric Element Value Vector (one numeric
value per each of the 118 known symbols) returns the same vector unchanged,
mapping the same symbols to the same values. -/
theorem c5_count_elements_idempotent (parse : String → List (String × ℚ))
    (w : String → EVal) :
    count_elements parse (denseInput w) =
      .ok (ptableSymbols.map fun s => (s, w s)) := by
  have hnum := denseInput_all_isNum w
  rw [count_elements, branchEntries, hnum]
  simp only [if_true, Except.map]
  rw [denseInput, numEntries_map_num]
  have hkeys : ((ptableSymbols.map fun s => (PyKey.str s, w s)).map Prod.fst) =
      ptableSymbols.map PyKey.str := by
    rw [List.map_map]
    rfl
  have hii : indexAllInt (ptableSymbols.map PyKey.str) = false := by decide
  have hid : indexAllDigit (ptableSymbols.map PyKey.str) = false := by decide
  rw [applyRemap, hkeys, hii, hid]
  simp only [Bool.or_self, Bool.false_eq_true, if_false]
  rw [reindex]
  have : ∀ s ∈ ptableSymbols,
      (s, (findVal ((ptableSymbols.map fun t => (PyKey.str t, w t))) s).getD (EVal.fin 0)) =
        (s, w s) := by
    intro s hs
    rw [findVal_map_str w ptableSymbols ptableSymbols_nodup s hs]
    rfl
  rw [List.map_congr_left this]

/-- C8: get_crystal_sys maps space group 1 to triclinic and 230 to cubic,
and fails exactly when the argument is non-integral or outside the open
interval (0, 231); in particular 0 and 231 fail. -/
theorem c8_get_crystal_sys :
    get_crystal_sys 1 = .ok "triclinic" ∧
    get_crystal_sys 230 = .ok "cubic" ∧
    (get_crystal_sys 0).isOk = false ∧
    (get_crystal_sys 231).isOk = false ∧
    ∀ q : ℚ, (get_crystal_sys q).isOk = false ↔
      (q.den ≠ 1 ∨ q ≤ 0 ∨ 231 ≤ q) := by
  refine ⟨by rfl, by rfl, by decide, by decide, ?_⟩
  intro q
  rw [get_crystal_sys]
  split_ifs with hg h1 h2 h3 h4 h5 h6 <;> simp only [Except.isOk] <;>
    first
      | (constructor
         · intro hfalse
           exact Bool.noConfusion hfalse
         · rintro (hd | hle | hge)
           · exact absurd hg.1 hd
           · exact absurd hg.2.1 (not_lt.mpr hle)
           · exact absurd hg.2.2 (not_lt.mpr hge))
      | (constructor
         · intro _
           by_contra hc
           push_neg at hc
           exact hg ⟨hc.1, hc.2.1, hc.2.2⟩
         · intro _
           rfl)

theorem c8_get_crystal_sys_witness : (get_crystal_sys (231:ℚ)).isOk = false :=
  (c8_get_crystal_sys.2.2.2.2 231).mpr (Or.inr (Or.inr (le_refl _)))

set_option maxRecDepth 8000 in
/-- C2 (code bug): at input mapping Fe to 10, the autoscaled color maximum is
10, yet supplying the smaller cap cbar_max = 5 sets the normalization
maximum to 5: the code assigns the cap unconditionally instead of ignoring a
cap below the observed maximum as its own docstring and the spec state. -/
theorem c2_cbar_max_not_clamped :
    ((ptable_heatmap (fun _ => []) feTenInput false none
        (some HeatLabels.value)).toOption.map HeatmapRender.vmax =
      some (some (10:ℚ))) ∧
    ((ptable_heatmap (fun _ => []) feTenInput false (some 5)
        (some HeatLabels.value)).toOption.map HeatmapRender.vmax =
      some (some (5:ℚ))) ∧
    (5:ℚ) < 10 := by decide

/-- C3: calling ptable_heatmap with log together with heat_labels fraction
or percent fails with the config-conflict error before any aggregation (the
result is the conflict error for every input, even inputs the aggregator
would reject); with any other heat_labels value, log never produces this
error. -/
theorem c3_log_label_conflict (parse : String → List (String × ℚ))
    (ev : List (PyKey × PyVal)) (cbar_max : Option ℚ) (hl : Option HeatLabels) :
    ((hl = some HeatLabels.fraction ∨ hl = some HeatLabels.percent) →
      ptable_heatmap parse ev true cbar_max hl = .error .configConflict) ∧
    (hl ≠ some HeatLabels.fraction → hl ≠ some HeatLabels.percent →
      ptable_heatmap parse ev true cbar_max hl ≠ .error .configConflict) := by
  constructor
  · intro h
    rw [ptable_heatmap, if_pos ⟨rfl, h⟩]
  · intro h1 h2
    rw [ptable_heatmap, if_neg (fun hcond => hcond.2.elim h1 h2)]
    cases hc : count_elements parse ev with
    | error msg => simp
    | ok vals => simp

theorem c3_log_label_conflict_witness :
    ptable_heatmap (fun _ => []) [] true none (some HeatLabels.percent) =
      .error .configConflict ∧
    ptable_heatmap (fun _ => []) [] true none (some HeatLabels.value) ≠
      .error .configConflict :=
  ⟨(c3_log_label_conflict (fun _ => []) [] none (some HeatLabels.percent)).1
      (Or.inr rfl),
   (c3_log_label_conflict (fun _ => []) [] none (some HeatLabels.value)).2
      (by decide) (by decide)⟩

/-- C7: count_elements fails with the input-naming ValueError exactly when
the values are neither uniformly numeric nor uniformly textual; the error
message is the fixed text followed by the representation of the offending
input, and uniformly numeric or uniformly textual inputs never raise it. -/
theorem c7_invalid_input (parse : String → List (String × ℚ))
    (ev : List (PyKey × PyVal)) :
    (¬ (ev.map Prod.snd).all PyVal.isNum = true →
     ¬ (ev.map Prod.snd).all PyVal.isStr = true →
      count_elements parse ev =
        .error (invalidElemValuesMsgHead ++ elemValuesRepr ev)) ∧
    ((ev.map Prod.snd).all PyVal.isNum = true ∨
        (ev.map Prod.snd).all PyVal.isStr = true →
      (count_elements parse ev).isOk = true) := by
  constructor
  · intro hn hs
    rw [count_elements, branchEntries, if_neg hn, if_neg hs]
    rfl
  · rintro (h | h)
    · rw [count_elements, branchEntries, h]
      rfl
    · by_cases hn : (ev.map Prod.snd).all PyVal.isNum = true
      · rw [count_elements, branchEntries, hn]
        rfl
      · rw [count_elements, branchEntries, if_neg hn, h]
        rfl

theorem c7_invalid_input_witness :
    count_elements (fun _ => []) mixedInput =
      .error (invalidElemValuesMsgHead ++ elemValuesRepr mixedInput) ∧
    (count_elements (fun _ => []) feTenInput).isOk = true :=
  ⟨(c7_invalid_input (fun _ => []) mixedInput).1 (by decide) (by decide),
   (c7_invalid_input (fun _ => []) feTenInput).2 (Or.inl (by decide))⟩

/-- C4: the ratio compositor applied to the same input on both sides yields,
for every element, 1.0 where the aggregated value is nonzero (present in
both) and NaN (0/0) where it is zero (absent from both); the infinity state
(present in numerator, absent in denominator) cannot occur when numerator
and denominator coincide.  The aggregated values are assumed finite, as they
are for every element-count or composition input. -/
theorem c4_ratio_self (parse : String → List (String × ℚ))
    (ev : List (PyKey × PyVal)) (out : List (String × EVal))
    (hok : count_elements parse ev = .ok out)
    (hfin : ∀ kv ∈ out, kv.2.isFinite = true) :
    ratioVector parse ev ev false =
      .ok (out.map fun kv =>
        (kv.1, if kv.2 = EVal.fin 0 then EVal.nan else EVal.fin 1)) := by
  rw [ratioVector]
  rw [hok]
  simp only [List.zipWith_same]
  rw [if_neg Bool.false_ne_true]
  congr 1
  apply List.map_congr_left
  intro kv hkv
  have hv := hfin kv hkv
  obtain ⟨k, v⟩ := kv
  cases v with
  | fin q =>
    by_cases hq : q = 0
    · subst hq
      simp [EVal.div]
    · rw [div_fin_fin q q hq]
      simp [hq, div_self hq]
  | inf => exact absurd hv (by simp [EVal.isFinite])
  | ninf => exact absurd hv (by simp [EVal.isFinite])
  | nan => exact absurd hv (by simp [EVal.isFinite])

set_option maxRecDepth 8000 in
theorem c4_ratio_self_witness :
    ratioVector (fun _ => []) feTwoInput feTwoInput false =
      .ok (denseFeOut.map fun kv =>
        (kv.1, if kv.2 = EVal.fin 0 then EVal.nan else EVal.fin 1)) :=
  c4_ratio_self (fun _ => []) feTwoInput denseFeOut (by decide) (by decide)

theorem ratioVector_err_num (parse : String → List (String × ℚ))
    (n d : List (PyKey × PyVal)) (normalize : Bool) (e : String)
    (hn : count_elements parse n = .error e) :
    ratioVector parse n d normalize = .error e := by
  rw [ratioVector, hn]

theorem ratioVector_err_denom (parse : String → List (String × ℚ))
    (n d : List (PyKey × PyVal)) (normalize : Bool) (num : List (String × EVal))
    (e : String) (hn : count_elements parse n = .ok num)
    (hd : count_elements parse d = .error e) :
    ratioVector parse n d normalize = .error e := by
  rw [ratioVector, hn, hd]

theorem ratioVector_ok_false (parse : String → List (String × ℚ))
    (n d : List (PyKey × PyVal)) (num denom : List (String × EVal))
    (hn : count_elements parse n = .ok num)
    (hd : count_elements parse d = .ok denom) :
    ratioVector parse n d false =
      .ok (List.zipWith (fun a b => (a.1, EVal.div a.2 b.2)) num denom) := by
  rw [ratioVector, hn, hd]
  rfl

theorem ratioVector_ok_true (parse : String → List (String × ℚ))
    (n d : List (PyKey × PyVal)) (num denom : List (String × EVal))
    (hn : count_elements parse n = .ok num)
    (hd : count_elements parse d = .ok denom) :
    ratioVector parse n d true =
      .ok ((List.zipWith (fun a b => (a.1, EVal.div a.2 b.2)) num denom).map
        fun kv => (kv.1, kv.2.div (pandasSum
          ((List.zipWith (fun a b => (a.1, EVal.div a.2 b.2)) num denom).map
            Prod.snd)))) := by
  rw [ratioVector, hn, hd]
  rfl

set_option maxRecDepth 8000 in
/-- C6 counterexample: with numerator mapping Fe and O to 1 and denominator
mapping Fe to 1, the elementwise quotient has O mapped to infinity, so its
pandas total is infinity; dividing by it sends every entry to 0 or NaN, and
the vector handed to the renderer sums to 0, not 1, refuting the claim that
normalize always makes the rendered ratio vector sum to 1. -/
theorem c6_normalize_counterexample :
    ((ratioVector (fun _ => []) ratioNumIn ratioDenomIn true).toOption.map
      fun r => pandasSum (r.map Prod.snd)) = some (EVal.fin 0) ∧
    EVal.fin 0 ≠ EVal.fin 1 := by
  refine ⟨?_, by decide⟩
  have h : ((ratioVector (fun _ => []) ratioNumIn ratioDenomIn true).toOption.map
      fun r => pandasSum (r.map Prod.snd)) = some (EVal.fin (0 + 0)) := rfl
  rw [h]
  norm_num

/-- C6 amended: when the elementwise quotient contains no infinities (every
element of the numerator support also occurs in the denominator support) and
its NaN-skipping total t is nonzero, normalize divides the vector by t and
the renderer-bound vector sums to 1. -/
theorem c6_normalize_amended (parse : String → List (String × ℚ))
    (n d : List (PyKey × PyVal)) (ev : List (String × EVal)) (t : ℚ)
    (h : ratioVector parse n d false = .ok ev)
    (hfn : ∀ kv ∈ ev, kv.2.finOrNan = true)
    (ht : pandasSum (ev.map Prod.snd) = EVal.fin t) (ht0 : t ≠ 0) :
    ratioVector parse n d true =
      .ok (ev.map fun kv => (kv.1, kv.2.div (EVal.fin t))) ∧
    pandasSum ((ev.map fun kv =>
        (kv.1, kv.2.div (EVal.fin t))).map Prod.snd) = EVal.fin 1 := by
  have hsnd : (ev.map fun kv => (kv.1, kv.2.div (EVal.fin t))).map Prod.snd =
      (ev.map Prod.snd).map fun v => v.div (EVal.fin t) := by
    rw [List.map_map, List.map_map]
    rfl
  have hmem : ∀ v ∈ ev.map Prod.snd, v.finOrNan = true := by
    intro v hv
    rcases List.mem_map.mp hv with ⟨kv, hkv, rfl⟩
    exact hfn kv hkv
  have hsum : pandasSum ((ev.map fun kv =>
      (kv.1, kv.2.div (EVal.fin t))).map Prod.snd) = EVal.fin 1 := by
    rw [hsnd]
    exact pandasSum_map_div_self (ev.map Prod.snd) t hmem ht ht0
  refine ⟨?_, hsum⟩
  cases hn : count_elements parse n with
  | error e =>
    rw [ratioVector_err_num parse n d false e hn] at h
    exact absurd h (by simp)
  | ok num =>
    cases hd : count_elements parse d with
    | error e =>
      rw [ratioVector_err_denom parse n d false num e hn hd] at h
      exact absurd h (by simp)
    | ok denom =>
      rw [ratioVector_ok_false parse n d num denom hn hd] at h
      have hev : List.zipWith (fun a b => (a.1, EVal.div a.2 b.2)) num denom = ev :=
        by injection h
      rw [ratioVector_ok_true parse n d num denom hn hd, hev, ht]

set_option maxRecDepth 8000 in
theorem c6_normalize_amended_witness :
    ratioVector (fun _ => []) feTwoInput feTwoInput true =
      .ok (c6SelfVec.map fun kv => (kv.1, kv.2.div (EVal.fin 1))) ∧
    pandasSum ((c6SelfVec.map fun kv =>
        (kv.1, kv.2.div (EVal.fin 1))).map Prod.snd) = EVal.fin 1 := by
  have hcount : count_elements (fun _ => []) feTwoInput = .ok denseFeOut := by
    decide
  have h : ratioVector (fun _ => []) feTwoInput feTwoInput false =
      .ok c6SelfVec := by
    rw [ratioVector_ok_false _ _ _ denseFeOut denseFeOut hcount hcount]
    congr 1
    rw [List.zipWith_same, denseFeOut, List.map_map, c6SelfVec]
    apply List.map_congr_left
    intro s _
    simp only [Function.comp]
    by_cases hs : s = "Fe"
    · subst hs
      norm_num [EVal.div]
    · simp only [if_neg hs]
      rfl
  have hfn : ∀ kv ∈ c6SelfVec, kv.2.finOrNan = true := by decide
  have ht : pandasSum (c6SelfVec.map Prod.snd) = EVal.fin 1 := by
    have hr : pandasSum (c6SelfVec.map Prod.snd) = EVal.fin (0 + 1) := rfl
    rw [hr]
    norm_num
  exact c6_normalize_amended (fun _ => []) feTwoInput feTwoInput c6SelfVec 1
    h hfn ht one_ne_zero

theorem histPercentLabels_ok (parse : String → List (String × ℚ))
    (formulas : List (PyKey × PyVal)) (keep_top : Option Nat)
    (counts : List (String × EVal))
    (hok : count_elements parse formulas = .ok counts) :
    histPercentLabels parse formulas keep_top =
      .ok ((displayedBars counts keep_top).map fun kv =>
        kv.2.div (pandasSum ((displayedBars counts keep_top).map Prod.snd))) := by
  rw [histPercentLabels, hok]

set_option maxRecDepth 8000 in
/-- C9 counterexample: for counts Fe=3 and O=1 with keep_top=1, the full
element total is 4, so the claim predicts the Fe bar label 3/4 (75%); the
code computes sum_elements after truncation and labels the Fe bar 3/3 = 1
(100%), so percent labels are fractions of the truncated subset, not of the
full total. -/
theorem c9_percent_of_truncated_counterexample :
    histPercentLabels (fun _ => []) histIn (some 1) = .ok [EVal.fin 1] ∧
    count_elements (fun _ => []) histIn = .ok histCounts ∧
    pandasSum ((nonZeroSorted histCounts).map Prod.snd) = EVal.fin 4 ∧
    EVal.fin 1 ≠ EVal.fin (3 / 4) := by
  have hok : count_elements (fun _ => []) histIn = .ok histCounts := by decide
  have hdisp : displayedBars histCounts (some 1) = [("Fe", EVal.fin 3)] := by
    decide
  have hsum1 : pandasSum ((displayedBars histCounts (some 1)).map Prod.snd) =
      EVal.fin 3 := by
    rw [hdisp]
    have hr : pandasSum ([("Fe", EVal.fin 3)].map Prod.snd) = EVal.fin (0 + 3) := rfl
    rw [hr]
    norm_num
  refine ⟨?_, hok, ?_, by norm_num⟩
  · rw [histPercentLabels_ok (fun _ => []) histIn (some 1) histCounts hok, hsum1,
      hdisp]
    norm_num [EVal.div]
  · have hr : pandasSum ((nonZeroSorted histCounts).map Prod.snd) =
        EVal.fin (0 + 3 + 1) := rfl
    rw [hr]
    norm_num

/-- C9 amended: with bar_values="percent", each displayed bar is annotated
with its count divided by the total of the displayed (post-truncation)
subset, and those fractions sum to 1 whenever that total is a nonzero finite
number. -/
theorem c9_percent_labels_amended (parse : String → List (String × ℚ))
    (formulas : List (PyKey × PyVal)) (counts : List (String × EVal))
    (keep_top : Option Nat) (t : ℚ)
    (hok : count_elements parse formulas = .ok counts)
    (hfin : ∀ kv ∈ displayedBars counts keep_top, kv.2.finOrNan = true)
    (ht : pandasSum ((displayedBars counts keep_top).map Prod.snd) = EVal.fin t)
    (ht0 : t ≠ 0) :
    histPercentLabels parse formulas keep_top =
      .ok ((displayedBars counts keep_top).map fun kv => kv.2.div (EVal.fin t)) ∧
    pandasSum ((displayedBars counts keep_top).map fun kv =>
      kv.2.div (EVal.fin t)) = EVal.fin 1 := by
  constructor
  · rw [histPercentLabels_ok parse formulas keep_top counts hok, ht]
  · have hm : (displayedBars counts keep_top).map
        (fun kv => kv.2.div (EVal.fin t)) =
        ((displayedBars counts keep_top).map Prod.snd).map
          fun v => v.div (EVal.fin t) := by
      rw [List.map_map]
      rfl
    rw [hm]
    exact pandasSum_map_div_self ((displayedBars counts keep_top).map Prod.snd) t
      (fun v hv => by
        rcases List.mem_map.mp hv with ⟨kv, hkv, rfl⟩
        exact hfin kv hkv) ht ht0

set_option maxRecDepth 8000 in
theorem c9_percent_labels_amended_witness :
    histPercentLabels (fun _ => []) histIn (some 1) =
      .ok ((displayedBars histCounts (some 1)).map fun kv =>
        kv.2.div (EVal.fin 3)) ∧
    pandasSum ((displayedBars histCounts (some 1)).map fun kv =>
      kv.2.div (EVal.fin 3)) = EVal.fin 1 :=
  c9_percent_labels_amended (fun _ => []) histIn histCounts (some 1) 3
    (by decide) (by decide)
    (by
      have hdisp : displayedBars histCounts (some 1) = [("Fe", EVal.fin 3)] := by
        decide
      rw [hdisp]
      have hr : pandasSum ([("Fe", EVal.fin 3)].map Prod.snd) =
        EVal.fin (0 + 3) := rfl
      rw [hr]
      norm_num)
    (by norm_num)

theorem branchEntries_num (parse : String → List (String × ℚ))
    (ev : List (PyKey × PyVal))
    (h : (ev.map Prod.snd).all PyVal.isNum = true) :
    branchEntries parse ev = .ok (numEntries ev) := by
  rw [branchEntries, h]
  rfl

theorem branchEntries_str (parse : String → List (String × ℚ))
    (ev : List (PyKey × PyVal))
    (hn : ¬ (ev.map Prod.snd).all PyVal.isNum = true)
    (hs : (ev.map Prod.snd).all PyVal.isStr = true) :
    branchEntries parse ev =
      .ok ((sumComps ((strValues ev).map parse)).map fun kv =>
        (PyKey.str kv.1, EVal.fin kv.2)) := by
  rw [branchEntries, if_neg hn, hs]
  rfl

theorem numEntries_keys (ev : List (PyKey × PyVal))
    (h : (ev.map Prod.snd).all PyVal.isNum = true) :
    (numEntries ev).map Prod.fst = ev.map Prod.fst := by
  induction ev with
  | nil => rfl
  | cons kv rest ih =>
    simp only [List.map_cons, List.all_cons, Bool.and_eq_true] at h
    obtain ⟨k, v⟩ := kv
    cases v with
    | num x =>
      simp only [numEntries, List.filterMap_cons] at ih ⊢
      rw [List.map_cons, ih h.2]
      rfl
    | str s => exact absurd h.1 (by simp [PyVal.isNum])
    | other t => exact absurd h.1 (by simp [PyVal.isNum])

theorem addWeight_keys (acc : List (String × ℚ)) (kv : String × ℚ) (k : String)
    (h : k ∈ (addWeight acc kv).map Prod.fst) :
    k ∈ acc.map Prod.fst ∨ k = kv.1 := by
  rw [addWeight] at h
  by_cases hc : acc.any (fun e => decide (e.1 = kv.1)) = true
  · rw [if_pos hc] at h
    left
    rcases List.mem_map.mp h with ⟨e', he', rfl⟩
    rcases List.mem_map.mp he' with ⟨e, he, rfl⟩
    by_cases heq : e.1 = kv.1
    · simp only [if_pos heq]
      exact List.mem_map_of_mem Prod.fst he
    · simp only [if_neg heq]
      exact List.mem_map_of_mem Prod.fst he
  · rw [if_neg hc, List.map_append] at h
    rcases List.mem_append.mp h with h | h
    · exact Or.inl h
    · right
      simpa using h

theorem foldl_addWeight_keys (c : List (String × ℚ)) (acc : List (String × ℚ))
    (k : String) (h : k ∈ (c.foldl addWeight acc).map Prod.fst) :
    k ∈ acc.map Prod.fst ∨ k ∈ c.map Prod.fst := by
  induction c generalizing acc with
  | nil => exact Or.inl h
  | cons kv c' ih =>
    rw [List.foldl_cons] at h
    rcases ih (addWeight acc kv) h with h' | h'
    · rcases addWeight_keys acc kv k h' with h'' | h''
      · exact Or.inl h''
      · right
        rw [List.map_cons, h'']
        exact List.mem_cons_self _ _
    · right
      rw [List.map_cons]
      exact List.mem_cons_of_mem _ h'

theorem sumComps_go_keys (comps : List (List (String × ℚ)))
    (acc : List (String × ℚ)) (k : String)
    (h : k ∈ (comps.foldl (fun acc c => c.foldl addWeight acc) acc).map Prod.fst) :
    k ∈ acc.map Prod.fst ∨ ∃ c ∈ comps, k ∈ c.map Prod.fst := by
  induction comps generalizing acc with
  | nil => exact Or.inl h
  | cons c cs ih =>
    rw [List.foldl_cons] at h
    rcases ih (c.foldl addWeight acc) h with h' | h'
    · rcases foldl_addWeight_keys c acc k h' with h'' | h''
      · exact Or.inl h''
      · exact Or.inr ⟨c, List.mem_cons_self _ _, h''⟩
    · rcases h' with ⟨c', hc', hk⟩
      exact Or.inr ⟨c', List.mem_cons_of_mem _ hc', hk⟩

theorem sumComps_keys (comps : List (List (String × ℚ))) (k : String)
    (h : k ∈ (sumComps comps).map Prod.fst) :
    ∃ c ∈ comps, k ∈ c.map Prod.fst := by
  rcases sumComps_go_keys comps [] k h with h' | h'
  · cases h'
  · exact h'

theorem remapAtomic_keys_mem (entries : List (PyKey × EVal)) (s : String)
    (h : PyKey.str s ∈ (remapAtomic entries).map Prod.fst) :
    ∃ k ∈ entries.map Prod.fst, atomicNumberToSymbol (pyKeyInt k) = some s := by
  rcases List.mem_map.mp h with ⟨kv', hkv', hfst⟩
  rcases List.mem_filterMap.mp hkv' with ⟨kv, hkv, hmap⟩
  cases hats : atomicNumberToSymbol (pyKeyInt kv.1) with
  | none =>
    rw [hats] at hmap
    cases hmap
  | some s' =>
    rw [hats] at hmap
    injection hmap with hmap
    have hp : PyKey.str s' = PyKey.str s := by
      have hq : ((fun u => (PyKey.str u, kv.2)) s').1 = PyKey.str s := by
        rw [hmap]
        exact hfst
      exact hq
    injection hp with hp
    refine ⟨kv.1, List.mem_map_of_mem Prod.fst hkv, ?_⟩
    rw [hats, hp]

/-- C1: for every accepted input, the aggregated output has exactly one
entry per known element symbol (the full 118-symbol table index, without
duplicates), and maps every symbol not contributed by the input to 0: for a
symbol-keyed numeric mapping the contributed symbols are its keys, for an
atomic-number-keyed mapping they are the symbols of its atomic numbers, and
for a sequence of composition expressions they are the elements of the
parsed compositions. -/
theorem c1_count_elements_full_domain
    (parse : String → List (String × ℚ)) (ev : List (PyKey × PyVal))
    (out : List (String × EVal))
    (hparse : ∀ f : String, ∀ kv ∈ parse f, kv.1 ∈ ptableSymbols)
    (hok : count_elements parse ev = .ok out) :
    out.length = 118 ∧
    out.map Prod.fst = ptableSymbols ∧
    (out.map Prod.fst).Nodup ∧
    ((ev.map Prod.snd).all PyVal.isNum = true →
      indexAllInt (ev.map Prod.fst) = false →
      indexAllDigit (ev.map Prod.fst) = false →
      ∀ s ∈ ptableSymbols, PyKey.str s ∉ ev.map Prod.fst →
        seriesVal out s = some (EVal.fin 0)) ∧
    ((ev.map Prod.snd).all PyVal.isNum = true →
      (indexAllInt (ev.map Prod.fst) || indexAllDigit (ev.map Prod.fst)) = true →
      ∀ s ∈ ptableSymbols,
        (∀ k ∈ ev.map Prod.fst, atomicNumberToSymbol (pyKeyInt k) ≠ some s) →
        seriesVal out s = some (EVal.fin 0)) ∧
    ((ev.map Prod.snd).all PyVal.isStr = true →
      ¬ (ev.map Prod.snd).all PyVal.isNum = true →
      ∀ s ∈ ptableSymbols,
        (∀ f ∈ strValues ev, s ∉ (parse f).map Prod.fst) →
        seriesVal out s = some (EVal.fin 0)) := by
  cases hb : branchEntries parse ev with
  | error e =>
    rw [count_elements, hb] at hok
    exact absurd hok (by simp [Except.map])
  | ok entries =>
    rw [count_elements, hb] at hok
    simp only [Except.map] at hok
    injection hok with hout
    subst hout
    refine ⟨reindex_length _, reindex_map_fst _, ?_, ?_, ?_, ?_⟩
    · rw [reindex_map_fst]
      exact ptableSymbols_nodup
    · intro hnum hii hid s hs hsnot
      have he : numEntries ev = entries := by
        have h2 := (branchEntries_num parse ev hnum).symm.trans hb
        injection h2 with h3
      have hkeys : entries.map Prod.fst = ev.map Prod.fst := by
        rw [← he]
        exact numEntries_keys ev hnum
      rw [seriesVal_reindex _ s hs, applyRemap, hkeys, hii, hid]
      simp only [Bool.or_self]
      rw [if_neg Bool.false_ne_true]
      rw [findVal_not_mem entries s (by rw [hkeys]; exact hsnot)]
      rfl
    · intro hnum hcond s hs hknot
      have he : numEntries ev = entries := by
        have h2 := (branchEntries_num parse ev hnum).symm.trans hb
        injection h2 with h3
      have hkeys : entries.map Prod.fst = ev.map Prod.fst := by
        rw [← he]
        exact numEntries_keys ev hnum
      rw [seriesVal_reindex _ s hs, applyRemap, hkeys, hcond]
      rw [if_pos rfl]
      rw [findVal_not_mem (remapAtomic entries) s ?hnot]
      · rfl
      case hnot =>
        intro hmem
        rcases remapAtomic_keys_mem entries s hmem with ⟨k, hk, hats⟩
        rw [hkeys] at hk
        exact hknot k hk hats
    · intro hstr hnnum s hs hnotparse
      have he : ((sumComps ((strValues ev).map parse)).map fun kv =>
          (PyKey.str kv.1, EVal.fin kv.2)) = entries := by
        have h2 := (branchEntries_str parse ev hnnum hstr).symm.trans hb
        injection h2 with h3
      rw [seriesVal_reindex _ s hs]
      have hkeysym : ∀ k ∈ entries.map Prod.fst,
          ∃ sym ∈ ptableSymbols, k = PyKey.str sym := by
        intro k hk
        rw [← he] at hk
        rcases List.mem_map.mp hk with ⟨kv', hkv', rfl⟩
        rcases List.mem_map.mp hkv' with ⟨kv0, hkv0, rfl⟩
        have hks : kv0.1 ∈ (sumComps ((strValues ev).map parse)).map Prod.fst :=
          List.mem_map_of_mem Prod.fst hkv0
        rcases sumComps_keys _ _ hks with ⟨c, hc, hkc⟩
        rcases List.mem_map.mp hc with ⟨f, hf, rfl⟩
        rcases List.mem_map.mp hkc with ⟨kvp, hkvp, hq⟩
        exact ⟨kv0.1, by rw [← hq]; exact hparse f kvp hkvp, rfl⟩
      have hsnotmem : PyKey.str s ∉ entries.map Prod.fst := by
        intro hmem
        rw [← he] at hmem
        rcases List.mem_map.mp hmem with ⟨kv', hkv', hfst⟩
        rcases List.mem_map.mp hkv' with ⟨kv0, hkv0, rfl⟩
        have hpk : PyKey.str kv0.1 = PyKey.str s := hfst
        injection hpk with hss
        have hks : kv0.1 ∈ (sumComps ((strValues ev).map parse)).map Prod.fst :=
          List.mem_map_of_mem Prod.fst hkv0
        rcases sumComps_keys _ _ hks with ⟨c, hc, hkc⟩
        rcases List.mem_map.mp hc with ⟨f, hf, rfl⟩
        rw [hss] at hkc
        exact hnotparse f hf hkc
      cases hE : entries with
      | nil => rfl
      | cons e0 rest =>
        obtain ⟨sym, hsymmem, hsymeq⟩ :=
          hkeysym e0.1 (by rw [hE, List.map_cons]; exact List.mem_cons_self _ _)
        have hii : indexAllInt ((e0 :: rest).map Prod.fst) = false := by
          rw [List.map_cons, indexAllInt, List.all_cons, hsymeq]
          simp
        have hid : indexAllDigit ((e0 :: rest).map Prod.fst) = false := by
          rw [List.map_cons, indexAllDigit, List.all_cons, hsymeq]
          simp [ptableSymbols_no_digit sym hsymmem]
        rw [applyRemap, hii, hid]
        simp only [Bool.or_self]
        rw [if_neg Bool.false_ne_true]
        rw [findVal_not_mem (e0 :: rest) s (hE ▸ hsnotmem)]
        rfl

theorem dictHoverFold_ok (props : List (String × String))
    (d : List (String × String))
    (h : ∀ kv ∈ d, (getItem props kv.1).isOk = true) :
    ∀ ht, ∃ ht', dictHoverFold props d ht = .ok ht' := by
  induction d with
  | nil => exact fun ht => ⟨ht, rfl⟩
  | cons kv rest ih =>
    intro ht
    have hh := h kv (List.mem_cons_self kv rest)
    cases hgi : getItem props kv.1 with
    | error e => rw [hgi] at hh; exact Bool.noConfusion hh
    | ok v =>
      rw [dictHoverFold, hgi]
      exact ih (fun kv' hkv' => h kv' (List.mem_cons_of_mem kv hkv')) _

theorem listHoverParts_ok (props : List (String × String)) (cols : List String)
    (h : ∀ c ∈ cols, (getItem props c).isOk = true) :
    ∃ parts, listHoverParts props cols = .ok parts := by
  induction cols with
  | nil => exact ⟨[], rfl⟩
  | cons c rest ih =>
    have hh := h c (List.mem_cons_self c rest)
    cases hgi : getItem props c with
    | error e => rw [hgi] at hh; exact Bool.noConfusion hh
    | ok v =>
      obtain ⟨parts, hparts⟩ := ih fun c' hc' => h c' (List.mem_cons_of_mem c hc')
      exact ⟨(c ++ " = " ++ v) :: parts, by rw [listHoverParts, hgi, hparts]⟩

theorem hoverTexts_list_ok (hover_data : Option (List (String × String)))
    (cols : List String) (rows : List PlotlyRow)
    (hhd : ∀ row ∈ rows, hoverDataOk hover_data row = true)
    (hcols : ∀ row ∈ rows, ∀ c ∈ cols, (getItem row.props c).isOk = true) :
    ∀ cds, (hoverTexts hover_data (some (.list cols)) rows cds).isOk = true := by
  induction rows with
  | nil => intro cds; rfl
  | cons r rest ih =>
    intro cds
    obtain ⟨parts, hparts⟩ :=
      listHoverParts_ok r.props cols (hcols r (List.mem_cons_self r rest))
    have htail := ih (fun row hrow => hhd row (List.mem_cons_of_mem r hrow))
      (fun row hrow => hcols row (List.mem_cons_of_mem r hrow))
      (some (String.intercalate "<br>" parts))
    have hr := hhd r (List.mem_cons_self r rest)
    cases hhd0 : hover_data with
    | none =>
      rw [hhd0] at htail
      simp only [hoverTexts, rowHoverText, rowHoverTextCols, hparts]
      cases hrest : hoverTexts none (some (.list cols)) rest
          (some (String.intercalate "<br>" parts)) with
      | error e =>
        rw [hrest] at htail
        exact Bool.noConfusion htail
      | ok texts => rfl
    | some hd =>
      rw [hhd0] at htail
      rw [hhd0, hoverDataOk] at hr
      cases hgi : getItem hd r.symbol with
      | error e =>
        rw [hgi] at hr
        exact Bool.noConfusion hr
      | ok v =>
        simp only [hoverTexts, rowHoverText, hgi, rowHoverTextCols, hparts]
        cases hrest : hoverTexts (some hd) (some (.list cols)) rest
            (some (String.intercalate "<br>" parts)) with
        | error e =>
          rw [hrest] at htail
          exact Bool.noConfusion htail
        | ok texts => rfl

/-- C10: in the hover-text construction of ptable_heatmap_plotly, passing
hover_cols as a dict (the documented mapping form) fails with a NameError on
the unassigned local col_data_str while building the first tile's hover
text, because the joined property string is only assigned on the list
branch yet read unconditionally; passing hover_cols as a list succeeds
(given that the requested property names and hover_data keys resolve). -/
theorem c10_hover_cols_dict_name_error
    (r : PlotlyRow) (rows : List PlotlyRow)
    (hover_data : Option (List (String × String)))
    (d : List (String × String)) (cols : List String)
    (hhd : ∀ row ∈ r :: rows, hoverDataOk hover_data row = true)
    (hdict : ∀ kv ∈ d, (getItem r.props kv.1).isOk = true)
    (hcols : ∀ row ∈ r :: rows, ∀ c ∈ cols, (getItem row.props c).isOk = true) :
    plotlyHoverTexts (r :: rows) hover_data (some (.dict d)) =
      .error (.nameErr "col_data_str") ∧
    (plotlyHoverTexts (r :: rows) hover_data (some (.list cols))).isOk = true := by
  constructor
  · rw [plotlyHoverTexts]
    cases hhd0 : hover_data with
    | none =>
      obtain ⟨ht', hfold⟩ := dictHoverFold_ok r.props d hdict r.name
      simp only [hoverTexts, rowHoverText, rowHoverTextCols, hfold]
    | some hd =>
      have hr := hhd r (List.mem_cons_self r rows)
      rw [hhd0, hoverDataOk] at hr
      cases hgi : getItem hd r.symbol with
      | error e =>
        rw [hgi] at hr
        exact Bool.noConfusion hr
      | ok v =>
        obtain ⟨ht', hfold⟩ :=
          dictHoverFold_ok r.props d hdict (r.name ++ "<br>" ++ v)
        simp only [hoverTexts, rowHoverText, hgi, rowHoverTextCols, hfold]
  · exact hoverTexts_list_ok hover_data cols (r :: rows) hhd hcols none

theorem c10_hover_cols_dict_name_error_witness :
    plotlyHoverTexts [h2Row] none
      (some (.dict [("n_valence", "valence electrons")])) =
      .error (.nameErr "col_data_str") ∧
    (plotlyHoverTexts [h2Row] none (some (.list ["n_valence"]))).isOk = true :=
  c10_hover_cols_dict_name_error h2Row [] none
    [("n_valence", "valence electrons")] ["n_valence"]
    (by decide) (by decide) (by decide)

set_option maxRecDepth 8000 in
theorem c1_count_elements_full_domain_witness :
    denseFeOut.length = 118 ∧ seriesVal denseFeOut "Au" = some (EVal.fin 0) := by
  have h := c1_count_elements_full_domain (fun _ => []) feTwoInput denseFeOut
    (fun f kv hkv => absurd hkv (List.not_mem_nil kv))
    (by decide)
  exact ⟨h.1, h.2.2.2.1 (by decide) (by decide) (by decide) "Au" (by decide)
    (by decide)⟩
